import Mathlib

/-
Shallow embedding of src/pdfRenameWithRequests.py.

Python strings are modelled as Lean `String` (a structure over `List Char`);
every Python string operation used by the source is implemented explicitly
over the underlying character list, so that all definitions are executable
and kernel-reducible.  Machine-level concerns (bytes of the HTTP response,
actual directory creation) are outside every claim and are noted where they
are abstracted.
-/

/-- Characters treated as whitespace by Python `str.strip()` (ASCII range). -/
def isPySpace (c : Char) : Bool :=
  c = ' ' || c = '\t' || c = '\n' || c = '\r' || c = '\x0b' || c = '\x0c'

/-- `l` with leading and trailing Python-whitespace removed. -/
def stripChars (l : List Char) : List Char :=
  ((l.dropWhile isPySpace).reverse.dropWhile isPySpace).reverse

/-- Python `s.strip()`. -/
def pyStrip (s : String) : String := ⟨stripChars s.data⟩

/-- Python `s.replace(a, b)` for single characters `a`, `b`. -/
def replCh (a b : Char) (s : String) : String :=
  ⟨s.data.map (fun c => if c = a then b else c)⟩

/-- Python `s.replace(a, "")` for a single character `a`. -/
def delCh (a : Char) (s : String) : String :=
  ⟨s.data.filter (fun c => c != a)⟩

/-- Python `s[:n]` (slice from the start). -/
def pyTake (n : Nat) (s : String) : String := ⟨s.data.take n⟩

/-- Python `s.replace(aa, a)` where `aa` is the character `a` twice:
left-to-right scan, non-overlapping, the replacement is not rescanned.
Used for `text.replace("  ", " ")` and `directory.replace("\\\\", "\\")`. -/
def collapsePair (a : Char) : List Char → List Char
  | x :: y :: rest =>
    if x = a then
      if y = a then a :: collapsePair a rest
      else x :: collapsePair a (y :: rest)
    else x :: collapsePair a (y :: rest)
  | l => l

/-- String-level wrapper for `collapsePair`. -/
def pyCollapse (a : Char) (s : String) : String := ⟨collapsePair a s.data⟩

/-- The part of `l` strictly before the first occurrence of `lit`
(`l` itself when `lit` does not occur): Python `s.split(lit)[0]`. -/
def beforeLit (lit : List Char) : List Char → List Char
  | [] => []
  | c :: rest =>
    if lit.isPrefixOf (c :: rest) then []
    else c :: beforeLit lit rest

/-- Python `s.split(lit)[0]` at the string level. -/
def takeBeforeLit (lit : String) (s : String) : String := ⟨beforeLit lit.data s.data⟩

/-- Python `s.split("\n")`: every newline is a separator, empty segments kept,
`""` splits to `[""]`. -/
def splitNl : List Char → List (List Char)
  | [] => [[]]
  | c :: rest =>
    if c = '\n' then [] :: splitNl rest
    else
      match splitNl rest with
      | s :: ss => (c :: s) :: ss
      | [] => [[c]]

/-- String-level `s.split("\n")`. -/
def splitNlStr (s : String) : List String := (splitNl s.data).map String.mk

/-- `clean_description` (src line 13): takes the first match, strips it, splits
on newlines, keeps lines that are non-empty after stripping, takes the last
one (or Python `None` when there is none), then unconditionally calls
`.replace(" ", "-").replace("_", "-")` on the result.  The unconditional
`.replace` is outside the `if`/`else`, so when the value is `None` the code
raises `AttributeError`; that raise is modelled as `Except.error ()`. -/
def clean_description (description_field : List String) : Except Unit String :=
  let x : Option String :=
    match description_field with
    | [] => none
    | f :: _ =>
      let lines := (splitNlStr (pyStrip f)).filter (fun line => pyStrip line != "")
      lines.getLast?
  match x with
  | none => .error ()
  | some s => .ok (replCh '_' '-' (replCh ' ' '-' s))

/-- `clean_field` (src line 27): takes the first match, strips, replaces spaces
with underscores; with a truthy `limit` (Python `if limit:`, so `0` counts as
no limit), truncates to `limit` when `len(field) >= limit`, otherwise pads
with trailing underscores up to `limit`.  Empty match list yields `None`. -/
def clean_field (field : List String) (limit : Option Nat := none) : Option String :=
  match field with
  | [] => none
  | f :: _ =>
    let f := replCh ' ' '_' (pyStrip f)
    match limit with
    | none => some f
    | some l =>
      if l = 0 then some f
      else if l ≤ f.length then some (pyTake l f)
      else some (f ++ ⟨List.replicate (l - f.length) '_'⟩)

/-- `clean_date` (src line 44): takes the first match, drops everything from
the first `" at"` onward (`split(" at")[0]`), strips, replaces `/` with `_`;
if the result with spaces removed equals `"UploadDate"`, returns the empty
string sentinel.  Empty match list yields `None`. -/
def clean_date (date_field : List String) : Option String :=
  match date_field with
  | [] => none
  | f :: _ =>
    let d := replCh '/' '_' (pyStrip (takeBeforeLit " at" f))
    if delCh ' ' d = "UploadDate" then some "" else some d

/-- One scanning pass of `re.findall(tag + "(.*?)\n", text, re.DOTALL)` where
`tag` is a literal ending in a newline (patterns `"Uploaded By\n(.*?)\n"`
etc.): leftmost non-overlapping matches, each capture being the characters
between the tag and the next newline.  `fuel` bounds the recursion; every
recursive call is on a strictly shorter list, so `length + 1` fuel is never
exhausted. -/
def findTagAux (tag : List Char) : Nat → List Char → List (List Char)
  | 0, _ => []
  | _ + 1, [] => []
  | fuel + 1, c :: rest =>
    if tag.isPrefixOf (c :: rest) then
      let after := (c :: rest).drop tag.length
      let cap := after.takeWhile (fun x => x != '\n')
      match after.drop cap.length with
      | '\n' :: rest2 => cap :: findTagAux tag fuel rest2
      | _ => findTagAux tag fuel rest
    else findTagAux tag fuel rest

/-- `re.findall(tag + "(.*?)\n", s, re.DOTALL)` for a literal `tag`. -/
def findallTagNl (tag : String) (s : String) : List String :=
  (findTagAux tag.data (s.data.length + 1) s.data).map String.mk

/-- Splits `l` at the first occurrence of `lit`: `some (pre, post)` with
`l = pre ++ lit ++ post`, or `none` when `lit` (non-empty) does not occur. -/
def splitFirst (lit : List Char) : List Char → Option (List Char × List Char)
  | [] => if lit.isPrefixOf ([] : List Char) then some ([], []) else none
  | c :: rest =>
    if lit.isPrefixOf (c :: rest) then some ([], (c :: rest).drop lit.length)
    else
      match splitFirst lit rest with
      | some (pre, post) => some (c :: pre, post)
      | none => none

/-- `re.findall("(.*?)" + lit, text, re.DOTALL)` for a literal `lit`:
the captures are the segments before each non-overlapping occurrence of
`lit`.  Each match consumes at least `lit.length ≥ 1` characters, so
`length + 1` fuel is never exhausted. -/
def findUpToAux (lit : List Char) : Nat → List Char → List (List Char)
  | 0, _ => []
  | fuel + 1, cs =>
    match splitFirst lit cs with
    | none => []
    | some (pre, post) => pre :: findUpToAux lit fuel post

/-- String-level `re.findall("(.*?)" + lit, s, re.DOTALL)`. -/
def findallUpTo (lit : String) (s : String) : List String :=
  (findUpToAux lit.data (s.data.length + 1) s.data).map String.mk

/-- One scan of `re.findall(r"Job #:\s(\d+)", text)`: after the literal
`"Job #:"` one whitespace character, then a maximal non-empty digit run is
captured; on a failed partial match the scan advances one character, as the
regex engine does.  Fuel as above. -/
def findJobAux : Nat → List Char → List (List Char)
  | 0, _ => []
  | _ + 1, [] => []
  | fuel + 1, c :: rest =>
    if ("Job #:".data).isPrefixOf (c :: rest) then
      match (c :: rest).drop ("Job #:".data).length with
      | w :: r2 =>
        if isPySpace w then
          let ds := r2.takeWhile Char.isDigit
          if ds = [] then findJobAux fuel rest
          else ds :: findJobAux fuel (r2.drop ds.length)
        else findJobAux fuel rest
      | [] => []
    else findJobAux fuel rest

/-- String-level `re.findall(r"Job #:\s(\d+)", s)`. -/
def findallJob (s : String) : List String :=
  (findJobAux (s.data.length + 1) s.data).map String.mk

/-- `parse_text_to_fields` (src line 102): collapses double spaces, runs the
five patterns, cleans the fields.  Only `clean_description` can raise (when
the description pattern has no match, or the match has no non-blank line);
that propagates as `Except.error`.  On success the result is the 5-tuple
`(uploaded_by, taken_date, upload_date, description, job_number)`. -/
def parse_text_to_fields (text : String) :
    Except Unit (Option String × Option String × Option String × Option String × Option String) :=
  let text := pyCollapse ' ' text
  let uploaded_by := findallTagNl "Uploaded By\n" text
  let taken_date := findallTagNl "Taken Date\n" text
  let upload_date := findallTagNl "Upload Date\n" text
  let description := findallUpTo "Description" text
  let job_number := findallJob text
  match clean_description description with
  | .error e => .error e
  | .ok d =>
    .ok (clean_field uploaded_by (some 5), clean_date taken_date,
         clean_date upload_date, some d, job_number.head?)

/-
Filesystem model: a file system state is the list of existing file paths,
and a path is its list of components (last component = basename).
`os.path.dirname` is `List.dropLast`, `os.path.join dir name` is
`dir ++ [name]`.  `os.makedirs(..., exist_ok=True)` is a no-op in this
file-set model.  `os.rename` errors when the source is missing or the
destination exists (Windows semantics, matching the platform the source's
comments indicate; POSIX `rename` would instead silently replace the
destination — noted where it matters).
-/

/-- A filesystem path as its list of components. -/
abbrev FsPath := List String

/-- `os.rename(old, new)`: error if `old` does not exist or `new` exists. -/
def osRename (fs : List FsPath) (old new : FsPath) : Except Unit (List FsPath) :=
  if !(fs.contains old) then .error ()
  else if fs.contains new then .error ()
  else .ok (new :: fs.filter (fun p => p != old))

/-- `move_jpeg_to_directory` (src line 131): makes the subdirectory named
`description` next to `old_file` and renames `old_file` into it, keeping the
basename. -/
def move_jpeg_to_directory (fs : List FsPath) (old_file : FsPath) (description : String) :
    Except Unit (List FsPath) :=
  let directory_path := old_file.dropLast ++ [description]
  match old_file.getLast? with
  | none => .error ()
  | some base => osRename fs old_file (directory_path ++ [base])

/-- Python interpolation of an optional string into an f-string:
`None` prints as the literal text `"None"`. -/
def pyShow : Option String → String
  | none => "None"
  | some s => s

/-- A word character in the sense of `re`'s `\w` (ASCII model):
alphanumeric or underscore.  `re.sub(r"\W+", "", s)` keeps exactly these. -/
def isWordChar (c : Char) : Bool := c.isAlphanum || c = '_'

/-- `re.sub(r"\W+", "", s)`: deletes every non-word character. -/
def stripNonWord (s : String) : String := ⟨s.data.filter isWordChar⟩

/-- The base of the new file name built by `rename_jpeg` (src lines 145-149):
`{description}_{page_number}_{job_number}` when `taken_date` is the empty
string, `{description}_{page_number}_{taken_date}_{job_number}` otherwise,
with `None` components as the literal `"None"`, then `\W+` stripped. -/
def newNameBase (description : Option String) (page_number : Nat)
    (taken_date job_number : Option String) : String :=
  let raw :=
    if taken_date = some "" then
      pyShow description ++ "_" ++ toString page_number ++ "_" ++ pyShow job_number
    else
      pyShow description ++ "_" ++ toString page_number ++ "_" ++ pyShow taken_date
        ++ "_" ++ pyShow job_number
  stripNonWord raw

/-- The candidate file name for dedup attempt `k` (src lines 150-154):
`base.jpeg` for `k = 0`, `base_k.jpeg` for `k ≥ 1`. -/
def suffixName (base : String) (k : Nat) : String :=
  if k = 0 then base ++ ".jpeg" else base ++ "_" ++ toString k ++ ".jpeg"

/-- The `while os.path.exists(...)` loop of `rename_jpeg`: first candidate
name (from suffix `k` upward) that does not exist in `dir`.  At most
`fs.length` candidates can collide with existing files, so `fs.length + 1`
fuel is never exhausted. -/
def freeNameAux (fs : List FsPath) (dir : FsPath) (base : String) : Nat → Nat → String
  | 0, k => suffixName base k
  | fuel + 1, k =>
    if fs.contains (dir ++ [suffixName base k]) then freeNameAux fs dir base fuel (k + 1)
    else suffixName base k

/-- `rename_jpeg` (src line 141): builds the deduplicated name, renames the
temp file to it in the same directory, then moves it into the `description`
subdirectory; the whole rename-and-move is inside `try/except`, so a failure
leaves the state reached so far (`os.path.join(dir, None)` for a `None`
description raises `TypeError`, also caught).  `uploaded_by` is accepted but
unused, as in the source. -/
def rename_jpeg (fs : List FsPath) (old_file : FsPath) (page_number : Nat)
    (description uploaded_by taken_date job_number : Option String) : List FsPath :=
  let base := newNameBase description page_number taken_date job_number
  let dir := old_file.dropLast
  let new_name := freeNameAux fs dir base (fs.length + 1) 0
  let new_file := dir ++ [new_name]
  match osRename fs old_file new_file with
  | .error _ => fs
  | .ok fs1 =>
    match description with
    | none => fs1
    | some d =>
      match move_jpeg_to_directory fs1 new_file d with
      | .error _ => fs1
      | .ok fs2 => fs2

/-
Pipeline model.  A PDF is a list of pages; each page yields extractable text
and a list of hyperlink URIs.  Both extraction back-ends (pdfplumber and
PyPDF2) are black boxes required to agree on page order and content, so the
model gives each page a single `text`.  The HTTP fetch is a black box whose
response bytes play no role in any claim; `download_jpeg` is modelled by the
file path it writes and the echoed page number.  The worker pool writes
`jpeg_files[page_number] = jpeg_file` per completed future; since every
future of one page carries the same key and the same file name, the final
mapping does not depend on completion order and is modelled sequentially.
-/

/-- One page of the PDF: extractable text plus hyperlink URIs. -/
structure PdfPage where
  text : String
  hyperlinks : List String

/-- `download_jpeg` (src line 60): writes `{path}/{section_title}_{count}.jpeg`
and returns the file name together with the page number `count`. -/
def download_jpeg (url : String) (path : FsPath) (count : Nat)
    (section_title : Option String) : FsPath × Nat :=
  (path ++ [pyShow section_title ++ "_" ++ toString count ++ ".jpeg"], count)

/-- The page loop of `download_jpegs_from_pdf` (src lines 80-98), pages
enumerated from index `i` (0-based, page number `i + 1`): parses each page's
text (a parse crash aborts the whole function), submits one download per
hyperlink, and collects `(page_number, jpeg_file)` entries. -/
def downloadAux (dir : FsPath) : Nat → List PdfPage → Except Unit (List (Nat × FsPath))
  | _, [] => .ok []
  | i, p :: rest =>
    match parse_text_to_fields p.text with
    | .error e => .error e
    | .ok (_uploaded_by, _taken_date, _upload_date, section_title, _job_number) =>
      let pageEntries := p.hyperlinks.map (fun url =>
        let r := download_jpeg url dir (i + 1) section_title
        (r.2, r.1))
      match downloadAux dir (i + 1) rest with
      | .error e => .error e
      | .ok m => .ok (pageEntries ++ m)

/-- `download_jpegs_from_pdf` (src line 71): the page-number-to-path mapping
(as an association list; all entries of one page carry the same value). -/
def download_jpegs_from_pdf (pdf : List PdfPage) (directory : FsPath) :
    Except Unit (List (Nat × FsPath)) :=
  downloadAux directory 0 pdf

/-- The second-pass loop of `process_pdf` (src lines 173-187) over pages
numbered from `pn`: parses each page's text, and when the page number is a
key of `jpegs` calls `rename_jpeg` on its file; otherwise the page is
skipped.  Returns the list of page numbers for which `rename_jpeg` was
called, together with the final filesystem state. -/
def processAux (jpegs : List (Nat × FsPath)) :
    Nat → List PdfPage → List FsPath → Except Unit (List Nat × List FsPath)
  | _, [], fs => .ok ([], fs)
  | pn, p :: rest, fs =>
    match parse_text_to_fields p.text with
    | .error e => .error e
    | .ok (uploaded_by, taken_date, _upload_date, description, job_number) =>
      match jpegs.lookup pn with
      | some old =>
        let fs1 := rename_jpeg fs old pn description uploaded_by taken_date job_number
        match processAux jpegs (pn + 1) rest fs1 with
        | .error e => .error e
        | .ok (log, fs2) => .ok (pn :: log, fs2)
      | none => processAux jpegs (pn + 1) rest fs

/-- `process_pdf` (src line 163): downloads the linked JPEGs, then walks the
pages a second time renaming each downloaded file.  Returns the fetch
mapping, the log of pages for which `rename_jpeg` was called, and the final
filesystem state. -/
def process_pdf (pdf : List PdfPage) (directory : FsPath) (fs : List FsPath) :
    Except Unit (List (Nat × FsPath) × List Nat × List FsPath) :=
  match download_jpegs_from_pdf pdf directory with
  | .error e => .error e
  | .ok jpegs =>
    match processAux jpegs 1 pdf fs with
    | .error e => .error e
    | .ok (log, fs2) => .ok (jpegs, log, fs2)

/-- Page numbers `pn, pn+1, ..., pn+n-1`, the range iterated by the driver. -/
def pageRange (pn : Nat) : Nat → List Nat
  | 0 => []
  | n + 1 => pn :: pageRange (pn + 1) n

/-- Outcome of the `__main__` block. -/
inductive CliOutcome where
  | indexError : CliOutcome
  | usageExit : Nat → CliOutcome
  | run : String → String → CliOutcome
deriving DecidableEq

/-- The `__main__` block (src lines 192-204): reads `sys.argv[1]` and
`sys.argv[2]` (an out-of-range access raises `IndexError`), normalizes the
directory (`replace("\\\\", "\\").replace("\"", "")`), and only then checks
the argument count, printing usage and exiting with status 1 when
`len(sys.argv) != 3`; otherwise runs the pipeline. -/
def mainEntry (argv : List String) : CliOutcome :=
  match argv[1]? with
  | none => .indexError
  | some pdf_file =>
    match argv[2]? with
    | none => .indexError
    | some directory =>
      let directory := delCh '"' (pyCollapse '\\' directory)
      if argv.length ≠ 3 then .usageExit 1
      else .run pdf_file directory

/-
Spec-side definitions.  These follow the wording of the claims (not the
source) and exist only to be compared with the source-derived definitions
above in refinement-style theorems.
-/

/-- Modelled from the claim's words: the output filename of the rename step —
base `{description}_{page_number}_{job_number}` when `taken_date` is the
empty string, `{description}_{page_number}_{taken_date}_{job_number}`
otherwise, null components as literal `"None"`, every character that is not
alphanumeric or underscore stripped, and `.jpeg` appended. -/
def specRenameName (description : Option String) (page_number : Nat)
    (taken_date job_number : Option String) : String :=
  let base :=
    if taken_date = some "" then
      description.getD "None" ++ "_" ++ toString page_number ++ "_" ++ job_number.getD "None"
    else
      description.getD "None" ++ "_" ++ toString page_number ++ "_" ++ taken_date.getD "None"
        ++ "_" ++ job_number.getD "None"
  ⟨base.data.filter (fun c => c.isAlphanum || c = '_')⟩ ++ ".jpeg"

deriving instance DecidableEq for Except

/-
Helper lemmas shared by the claim theorems.
-/

/-- String length is the length of the underlying character list. -/
theorem strLen (s : String) : s.length = s.data.length := rfl

/-- Characters of an appended string. -/
theorem strData_append (a b : String) : (a ++ b).data = a.data ++ b.data := by
  cases a with
  | mk l1 => cases b with
    | mk l2 => rfl

/-- Characters of a string built from an explicit list. -/
theorem strData_mk (l : List Char) : String.data ⟨l⟩ = l := rfl

/-- Characters of a truncating slice. -/
theorem strData_pyTake (n : Nat) (s : String) : (pyTake n s).data = s.data.take n := rfl

/-- `clean_field` on a non-empty match list with a positive limit:
truncate-or-pad, spelled as the source does. -/
theorem clean_field_cons (s : String) (rest : List String) (n : Nat) (hn : n ≠ 0) :
    clean_field (s :: rest) (some n)
      = some (if n ≤ (replCh ' ' '_' (pyStrip s)).length
              then pyTake n (replCh ' ' '_' (pyStrip s))
              else replCh ' ' '_' (pyStrip s)
                ++ ⟨List.replicate (n - (replCh ' ' '_' (pyStrip s)).length) '_'⟩) := by
  simp only [clean_field, hn, if_false]
  split <;> rfl

/-- Whatever `clean_field` returns under a positive limit has exactly that
length. -/
theorem clean_field_length (s : String) (rest : List String) (n : Nat) (hn : n ≠ 0)
    (r : String) (h : clean_field (s :: rest) (some n) = some r) : r.length = n := by
  rw [clean_field_cons s rest n hn] at h
  have hr := Option.some.inj h
  by_cases hc : n ≤ (replCh ' ' '_' (pyStrip s)).length
  · rw [if_pos hc] at hr
    subst hr
    simp only [strLen, strData_pyTake, List.length_take] at hc ⊢
    omega
  · rw [if_neg hc] at hr
    subst hr
    simp only [strLen, strData_append, strData_mk, List.length_append,
      List.length_replicate] at hc ⊢
    omega

/-
Claim theorems.
-/

/-- C1 counterexample: `clean_field(["Alice Bob"], 5)` is the truncation
`"Alice"`, not the unmodified `"Alice_Bob"` the claim states — the limit is
a width-cap, not a width-floor. -/
theorem clean_field_floor_counterexample :
    clean_field ["Alice Bob"] (some 5) = some "Alice" ∧
      clean_field ["Alice Bob"] (some 5) ≠ some "Alice_Bob" := by
  exact ⟨by decide, by decide⟩

/-- C1 (amended): `clean_field` with a positive limit is a width-cap: on a
non-empty match list, the stripped-and-underscored first element is
truncated to its first `limit` characters when its length is at least
`limit`, and right-padded with underscores to `limit` otherwise; in both
cases the output has length exactly `limit` (so
`clean_field(["Alice Bob"], 5) = "Alice"` and
`clean_field(["Al"], 5) = "Al___"`). -/
theorem clean_field_width_cap (s : String) (rest : List String) (n : Nat) (hn : 0 < n) :
    clean_field (s :: rest) (some n)
      = some (if n ≤ (replCh ' ' '_' (pyStrip s)).length
              then pyTake n (replCh ' ' '_' (pyStrip s))
              else replCh ' ' '_' (pyStrip s)
                ++ ⟨List.replicate (n - (replCh ' ' '_' (pyStrip s)).length) '_'⟩)
    ∧ ∀ r, clean_field (s :: rest) (some n) = some r → r.length = n := by
  have hn0 : n ≠ 0 := Nat.pos_iff_ne_zero.mp hn
  exact ⟨clean_field_cons s rest n hn0, fun r hr => clean_field_length s rest n hn0 r hr⟩

/-- Witness for C1 (amended) at `["Alice Bob"]` with limit 5. -/
theorem clean_field_width_cap_witness :
    clean_field ["Alice Bob"] (some 5)
      = some (if 5 ≤ (replCh ' ' '_' (pyStrip "Alice Bob")).length
              then pyTake 5 (replCh ' ' '_' (pyStrip "Alice Bob"))
              else replCh ' ' '_' (pyStrip "Alice Bob")
                ++ ⟨List.replicate (5 - (replCh ' ' '_' (pyStrip "Alice Bob")).length) '_'⟩)
    ∧ ∀ r, clean_field ["Alice Bob"] (some 5) = some r → r.length = 5 :=
  clean_field_width_cap "Alice Bob" [] 5 (by decide)

/-- C3: the parser is not total — on empty page text (the description
pattern has zero matches) `clean_description` dereferences `None`
(`AttributeError`) and `parse_text_to_fields` raises instead of returning
all-null fields. -/
theorem parse_crash_on_missing_description :
    parse_text_to_fields "" = .error () ∧ clean_description [] = .error () :=
  ⟨rfl, rfl⟩

/-- C4 counterexample: `clean_date(["March 1, 2020 at 10:00 PM"])` is
`"March 1, 2020"` — spaces are kept (only `/` is replaced by `_`), so the
claimed value `"March_1,_2020"` is wrong. -/
theorem clean_date_example_counterexample :
    clean_date ["March 1, 2020 at 10:00 PM"] = some "March 1, 2020" ∧
      clean_date ["March 1, 2020 at 10:00 PM"] ≠ some "March_1,_2020" := by
  exact ⟨by decide, by decide⟩

/-- C4 (amended): for every non-empty match list, unless the transformed
value with spaces removed is the `"UploadDate"` sentinel, `clean_date`
returns the first element with everything from the first `" at"` onward
removed, surrounding whitespace stripped, and every `/` replaced by `_`
(spaces are untouched); in particular
`clean_date(["March 1, 2020 at 10:00 PM"]) = "March 1, 2020"`. -/
theorem clean_date_transform (s : String) (rest : List String)
    (h : delCh ' ' (replCh '/' '_' (pyStrip (takeBeforeLit " at" s))) ≠ "UploadDate") :
    clean_date (s :: rest) = some (replCh '/' '_' (pyStrip (takeBeforeLit " at" s))) := by
  simp only [clean_date, if_neg h]

/-- Witness for C4 (amended) at `["March 1, 2020 at 10:00 PM"]`. -/
theorem clean_date_transform_witness :
    clean_date ["March 1, 2020 at 10:00 PM"]
      = some (replCh '/' '_' (pyStrip (takeBeforeLit " at" "March 1, 2020 at 10:00 PM"))) :=
  clean_date_transform "March 1, 2020 at 10:00 PM" [] (by decide)

/-- C5 counterexample: on the literal input `["Foo\n\nBar Baz\nDescription"]`
the last non-empty line is `"Description"` itself, so `clean_description`
returns `"Description"`, not the claimed `"Bar-Baz"` (the regex capture
excludes the anchor, so the matched text never ends in `"Description"`). -/
theorem clean_description_example_counterexample :
    clean_description ["Foo\n\nBar Baz\nDescription"] = .ok "Description" ∧
      clean_description ["Foo\n\nBar Baz\nDescription"] ≠ .ok "Bar-Baz" := by
  exact ⟨by decide, by decide⟩

/-- C5 (amended): for every non-empty match list whose first element has at
least one non-blank line, `clean_description` strips the first element,
splits it on newlines, discards blank lines, keeps only the last non-blank
line, and replaces every space and underscore in it with a hyphen; in
particular `clean_description(["Foo\n\nBar Baz\nDescription"]) =
"Description"` (the spec's intended example input, the capture
`"Foo\n\nBar Baz\n"`, gives `"Bar-Baz"`). -/
theorem clean_description_last_line (s : String) (rest : List String) (t : String)
    (h : ((splitNlStr (pyStrip s)).filter (fun line => pyStrip line != "")).getLast?
          = some t) :
    clean_description (s :: rest) = .ok (replCh '_' '-' (replCh ' ' '-' t)) := by
  simp only [clean_description, h]

/-- Witness for C5 (amended) at `["Foo\n\nBar Baz\nDescription"]`. -/
theorem clean_description_last_line_witness :
    clean_description ["Foo\n\nBar Baz\nDescription"]
      = .ok (replCh '_' '-' (replCh ' ' '-' "Description")) :=
  clean_description_last_line "Foo\n\nBar Baz\nDescription" [] "Description" (by decide)

/-- C7: for every non-empty match list whose first element, after removing
everything from `" at"` onward, stripping, and replacing `/` by `_`, equals
`"UploadDate"` once its spaces are deleted, `clean_date` returns the empty
string sentinel (distinct from `none`). -/
theorem clean_date_sentinel (s : String) (rest : List String)
    (h : delCh ' ' (replCh '/' '_' (pyStrip (takeBeforeLit " at" s))) = "UploadDate") :
    clean_date (s :: rest) = some "" := by
  simp only [clean_date, if_pos h]

/-- Witness for C7 at `["UploadDate"]`. -/
theorem clean_date_sentinel_witness : clean_date ["UploadDate"] = some "" :=
  clean_date_sentinel "UploadDate" [] (by decide)

/-- C10: whenever `parse_text_to_fields` returns at all and the
`"Uploaded By"` pattern had at least one match, the returned `uploaded_by`
field is a string of length exactly 5 (truncated when longer, underscore-
padded when shorter). -/
theorem parse_uploaded_by_width (text : String)
    (r : Option String × Option String × Option String × Option String × Option String)
    (hok : parse_text_to_fields text = .ok r)
    (hmatch : findallTagNl "Uploaded By\n" (pyCollapse ' ' text) ≠ []) :
    ∃ s, r.1 = some s ∧ s.length = 5 := by
  simp only [parse_text_to_fields] at hok
  cases hd : clean_description (findallUpTo "Description" (pyCollapse ' ' text)) with
  | error e => rw [hd] at hok; exact Except.noConfusion hok
  | ok d =>
    rw [hd] at hok
    have hr := (Except.ok.inj hok).symm
    rcases hl : findallTagNl "Uploaded By\n" (pyCollapse ' ' text) with _ | ⟨f, fr⟩
    · exact absurd hl hmatch
    · rw [hl] at hr
      refine ⟨_, ?_, clean_field_length f fr 5 (by decide) _ (clean_field_cons f fr 5 (by decide))⟩
      rw [hr]
      exact clean_field_cons f fr 5 (by decide)

/-- Witness for C10 at the page text `"Uploaded By\nAlice Smith\nDescription"`. -/
theorem parse_uploaded_by_width_witness :
    ∃ s, ((some "Alice", none, none, some "Alice-Smith", none) :
        Option String × Option String × Option String × Option String × Option String).1
          = some s ∧ s.length = 5 :=
  parse_uploaded_by_width "Uploaded By\nAlice Smith\nDescription" _ (by decide) (by decide)

/-- C6: the output name `rename_jpeg` builds — before dedup suffixing —
matches the specified formula: base `{description}_{page_number}_{job_number}`
when `taken_date` is the empty string, `{description}_{page_number}_
{taken_date}_{job_number}` otherwise, null components as literal `"None"`,
non-word characters stripped, `.jpeg` appended; and the dedup loop returns
exactly that name when it does not collide with an existing file. -/
theorem rename_builds_specified_name (description : Option String) (page_number : Nat)
    (taken_date job_number : Option String) :
    suffixName (newNameBase description page_number taken_date job_number) 0
      = specRenameName description page_number taken_date job_number
    ∧ ∀ (fs : List FsPath) (old_file : FsPath),
        (old_file.dropLast
            ++ [specRenameName description page_number taken_date job_number]) ∉ fs →
        freeNameAux fs old_file.dropLast
            (newNameBase description page_number taken_date job_number) (fs.length + 1) 0
          = specRenameName description page_number taken_date job_number := by
  have hshow : ∀ o : Option String, pyShow o = o.getD "None" := fun o => by cases o <;> rfl
  have h1 : suffixName (newNameBase description page_number taken_date job_number) 0
      = specRenameName description page_number taken_date job_number := by
    simp only [suffixName, newNameBase, specRenameName, stripNonWord, hshow, if_true]
    rfl
  refine ⟨h1, fun fs old_file hni => ?_⟩
  simp only [freeNameAux, h1]
  rw [if_neg (by simpa using hni)]

/-- Witness for C6 with a concrete metadata tuple and an empty directory. -/
theorem rename_builds_specified_name_witness :
    suffixName (newNameBase (some "pic") 1 (some "") (some "7")) 0
      = specRenameName (some "pic") 1 (some "") (some "7")
    ∧ freeNameAux [] ["d"] (newNameBase (some "pic") 1 (some "") (some "7")) 1 0
      = specRenameName (some "pic") 1 (some "") (some "7") := by
  have h := rename_builds_specified_name (some "pic") 1 (some "") (some "7")
  exact ⟨h.1, h.2 [] ["d", "x"] (by decide)⟩

/-- C9: with fewer than 3 CLI arguments `sys.argv[1]`/`[2]` raise an index
error before the usage message can print; with more than 3 the usage
message prints and the process exits with status 1. -/
theorem cli_checks_args_too_late (argv : List String) :
    (argv.length < 3 → mainEntry argv = .indexError)
    ∧ (3 < argv.length → mainEntry argv = .usageExit 1) := by
  constructor
  · intro h
    rcases argv with _ | ⟨a, _ | ⟨b, _ | ⟨c, rest⟩⟩⟩
    · rfl
    · rfl
    · rfl
    · simp only [List.length_cons] at h
      omega
  · intro h
    rcases argv with _ | ⟨a, _ | ⟨b, _ | ⟨c, rest⟩⟩⟩
    · exact absurd h (by simp)
    · exact absurd h (by simp)
    · exact absurd h (by simp)
    · have hrest : rest ≠ [] := by
        intro hr
        subst hr
        simp at h
      simp [mainEntry, hrest]

/-- Witness for C9 at one short and one long argument vector. -/
theorem cli_checks_args_too_late_witness :
    mainEntry ["prog"] = .indexError ∧ mainEntry ["prog", "a", "b", "c"] = .usageExit 1 :=
  ⟨(cli_checks_args_too_late ["prog"]).1 (by decide),
   (cli_checks_args_too_late ["prog", "a", "b", "c"]).2 (by decide)⟩

/-- C2: code-bug evaluation.  Two successive `rename_jpeg` calls with the
same computed base name `pic_1_7` on temp files in the same directory `d`:
the first output is moved into `d/pic/`, so the second call's existence
check in `d` finds nothing, reuses the unsuffixed name `pic_1_7.jpeg`, and
its move into `d/pic/` collides (caught, logged).  No file with the claimed
`_1` suffix exists anywhere afterwards; under POSIX rename semantics the
collision would instead silently overwrite the first output. -/
theorem rename_dedup_defeated :
    rename_jpeg (rename_jpeg [["d", "img_1.jpeg"], ["d", "img_2.jpeg"]]
        ["d", "img_1.jpeg"] 1 (some "pic") (some "xxxxx") (some "") (some "7"))
      ["d", "img_2.jpeg"] 1 (some "pic") (some "xxxxx") (some "") (some "7")
    = [["d", "pic_1_7.jpeg"], ["d", "pic", "pic_1_7.jpeg"]]
    ∧ ["d", "pic", "pic_1_7_1.jpeg"]
        ∉ ([["d", "pic_1_7.jpeg"], ["d", "pic", "pic_1_7.jpeg"]] : List FsPath)
    ∧ ["d", "pic_1_7_1.jpeg"]
        ∉ ([["d", "pic_1_7.jpeg"], ["d", "pic", "pic_1_7.jpeg"]] : List FsPath) := by
  exact ⟨by decide, by decide, by decide⟩

/-- When the download pass returns a mapping at all, every page's text was
parsed successfully (the pass parses every page before submitting its
fetches). -/
theorem downloadAux_parse_ok (pdf : List PdfPage) :
    ∀ (dir : FsPath) (i : Nat) (m : List (Nat × FsPath)),
      downloadAux dir i pdf = .ok m →
      ∀ p ∈ pdf, ∃ r, parse_text_to_fields p.text = .ok r := by
  induction pdf with
  | nil => intro dir i m _ p hp; exact absurd hp (List.not_mem_nil p)
  | cons q rest ih =>
    intro dir i m h p hp
    simp only [downloadAux] at h
    cases hq : parse_text_to_fields q.text with
    | error e => rw [hq] at h; exact Except.noConfusion h
    | ok r0 =>
      obtain ⟨u, t, ud, d, j⟩ := r0
      rw [hq] at h
      rcases List.mem_cons.mp hp with rfl | hp2
      · exact ⟨_, hq⟩
      · cases hrest : downloadAux dir (i + 1) rest with
        | error e => rw [hrest] at h; exact Except.noConfusion h
        | ok m2 => exact ih dir (i + 1) m2 hrest p hp2

/-- Every key of the mapping produced by the download pass is the 1-based
number of a page that has at least one hyperlink. -/
theorem downloadAux_keys (pdf : List PdfPage) :
    ∀ (dir : FsPath) (i : Nat) (m : List (Nat × FsPath)),
      downloadAux dir i pdf = .ok m →
      ∀ k v, (k, v) ∈ m →
        ∃ jdx page, pdf[jdx]? = some page ∧ k = i + jdx + 1 ∧ page.hyperlinks ≠ [] := by
  induction pdf with
  | nil =>
    intro dir i m h k v hm
    have hm0 : ([] : List (Nat × FsPath)) = m := Except.ok.inj h
    rw [← hm0] at hm
    exact absurd hm (List.not_mem_nil (k, v))
  | cons q rest ih =>
    intro dir i m h k v hm
    simp only [downloadAux] at h
    cases hq : parse_text_to_fields q.text with
    | error e => rw [hq] at h; exact Except.noConfusion h
    | ok r0 =>
      obtain ⟨u, t, ud, d, j⟩ := r0
      rw [hq] at h
      cases hrest : downloadAux dir (i + 1) rest with
      | error e => rw [hrest] at h; exact Except.noConfusion h
      | ok m2 =>
        rw [hrest] at h
        have hsplit := Except.ok.inj h
        rw [← hsplit] at hm
        rcases List.mem_append.mp hm with hin | hin
        · obtain ⟨url, hurl, hEq⟩ := List.mem_map.mp hin
          have hk : i + 1 = k := congrArg Prod.fst hEq
          refine ⟨0, q, by simp, by omega, fun hnil => ?_⟩
          rw [hnil] at hurl
          exact absurd hurl (List.not_mem_nil url)
        · obtain ⟨jdx, page, hpage, hkk, hne⟩ := ih dir (i + 1) m2 hrest k v hin
          exact ⟨jdx + 1, page, by simpa using hpage, by omega, hne⟩

/-- When every page's text parses, the driver's second pass completes without
raising and calls `rename_jpeg` exactly for the page numbers that are keys
of the fetch mapping, in order. -/
theorem processAux_ok (jpegs : List (Nat × FsPath)) (pdf : List PdfPage) :
    ∀ (pn : Nat) (fs : List FsPath),
      (∀ p ∈ pdf, ∃ r, parse_text_to_fields p.text = .ok r) →
      ∃ log fs2, processAux jpegs pn pdf fs = .ok (log, fs2)
        ∧ log = (pageRange pn pdf.length).filter (fun k => (jpegs.lookup k).isSome) := by
  induction pdf with
  | nil => intro pn fs _; exact ⟨[], fs, rfl, rfl⟩
  | cons q rest ih =>
    intro pn fs hall
    obtain ⟨r0, hq⟩ := hall q (List.mem_cons_self q rest)
    obtain ⟨u, t, ud, d, j⟩ := r0
    have hrest : ∀ p ∈ rest, ∃ r, parse_text_to_fields p.text = .ok r :=
      fun p hp => hall p (List.mem_cons_of_mem q hp)
    cases hl : jpegs.lookup pn with
    | some old =>
      obtain ⟨log, fs2, heq, hlog⟩ := ih (pn + 1) (rename_jpeg fs old pn d u t j) hrest
      refine ⟨pn :: log, fs2, ?_, ?_⟩
      · simp only [processAux, hq, hl, heq]
      · rw [hlog]
        simp [pageRange, List.filter_cons, hl]
    | none =>
      obtain ⟨log, fs2, heq, hlog⟩ := ih (pn + 1) fs hrest
      refine ⟨log, fs2, ?_, ?_⟩
      · simp only [processAux, hq, hl, heq]
      · rw [hlog]
        simp [pageRange, List.filter_cons, hl]

/-- C8: whenever `download_jpegs_from_pdf` returns a mapping, no page with
zero hyperlinks appears among its keys, and `process_pdf` completes without
raising, skipping every page number absent from the mapping and calling
`rename_jpeg` exactly for the page numbers present in it. -/
theorem zero_hyperlink_pages_skipped (pdf : List PdfPage) (directory : FsPath)
    (fs : List FsPath) (m : List (Nat × FsPath))
    (hdl : download_jpegs_from_pdf pdf directory = .ok m) :
    (∀ jdx page, pdf[jdx]? = some page → page.hyperlinks = [] →
        ∀ v, (jdx + 1, v) ∉ m)
    ∧ ∃ log fs2, process_pdf pdf directory fs = .ok (m, log, fs2)
        ∧ log = (pageRange 1 pdf.length).filter (fun k => (m.lookup k).isSome) := by
  have hparse := downloadAux_parse_ok pdf directory 0 m hdl
  constructor
  · intro jdx page hpage hnil v hmem
    obtain ⟨jdx2, page2, hpage2, hk, hne⟩ :=
      downloadAux_keys pdf directory 0 m hdl _ v hmem
    have hj : jdx2 = jdx := by omega
    subst hj
    rw [hpage] at hpage2
    exact hne (Option.some.inj hpage2 ▸ hnil)
  · obtain ⟨log, fs2, heq, hlog⟩ := processAux_ok m pdf 1 fs hparse
    refine ⟨log, fs2, ?_, hlog⟩
    simp only [process_pdf, hdl, heq]

/-- Witness for C8: a two-page PDF whose first page has one hyperlink and
whose second page has none; the mapping has exactly page 1 as key, and the
driver's log is exactly `[1]`. -/
theorem zero_hyperlink_pages_skipped_witness :
    (∀ jdx page,
        ([⟨"Uploaded By\nAl\nDescription", ["u"]⟩,
          ⟨"x\nDescription", []⟩] : List PdfPage)[jdx]? = some page →
        page.hyperlinks = [] →
        ∀ v, (jdx + 1, v) ∉ [(1, ["d", "Al_1.jpeg"])])
    ∧ ∃ log fs2,
        process_pdf
            [⟨"Uploaded By\nAl\nDescription", ["u"]⟩, ⟨"x\nDescription", []⟩] ["d"] []
          = .ok ([(1, ["d", "Al_1.jpeg"])], log, fs2)
        ∧ log = (pageRange 1
              ([⟨"Uploaded By\nAl\nDescription", ["u"]⟩,
                ⟨"x\nDescription", []⟩] : List PdfPage).length).filter
            (fun k => (([(1, ["d", "Al_1.jpeg"])] : List (Nat × FsPath)).lookup k).isSome) :=
  zero_hyperlink_pages_skipped
    [⟨"Uploaded By\nAl\nDescription", ["u"]⟩, ⟨"x\nDescription", []⟩]
    ["d"] [] [(1, ["d", "Al_1.jpeg"])] (by decide)
